import Mathlib

/-!
Shallow embedding of the RPC method-dispatch and parameter-validation layer of
the pyovpn-as repository (files `pyovpn_as/api/rpc.py` and
`pyovpn_as/api/exceptions.py`), together with theorems settling the frozen
claims about it.

Python values are modelled by the inductive `PyValue`; the parameter contracts
of the method catalog by `ParamDef` (the dict keys `name`, `type`, `required`,
`null`, `default`, with `default : Option PyValue` recording key presence);
raised `TypeError`s by explicit error values in `Except`.
-/

set_option autoImplicit false

namespace PyOvpn

/-- Python values as they occur in the RPC layer: `None`, booleans, ints,
floats (identity-only token, no arithmetic is performed on them anywhere in
the embedded code), strings, lists, and dicts (as ordered key/value pairs,
matching Python 3.7+ insertion-ordered dicts). -/
inductive PyValue where
  | none : PyValue
  | bool : Bool → PyValue
  | int : Int → PyValue
  | float : String → PyValue
  | str : String → PyValue
  | list : List PyValue → PyValue
  | dict : List (PyValue × PyValue) → PyValue

/-- The builtin classes that `validate_param` can look up on the `builtins`
module via `getattr`. -/
inductive PyType where
  | bool | int | float | str | list | dict
  deriving DecidableEq, Repr

deriving instance DecidableEq for Except

/-- `type(v).__name__`. -/
def typeName : PyValue → String
  | .none => "NoneType"
  | .bool _ => "bool"
  | .int _ => "int"
  | .float _ => "float"
  | .str _ => "str"
  | .list _ => "list"
  | .dict _ => "dict"

/-- `cls.__name__` for the resolved parameter class. -/
def typeNameOfTy : PyType → String
  | .bool => "bool"
  | .int => "int"
  | .float => "float"
  | .str => "str"
  | .list => "list"
  | .dict => "dict"

/-- Python `isinstance`.  Note that `bool` is a subclass of `int` in Python, so
a boolean is an instance of `int`. -/
def isinstance : PyValue → PyType → Bool
  | .bool _, .bool => true
  | .bool _, .int => true
  | .int _, .int => true
  | .float _, .float => true
  | .str _, .str => true
  | .list _, .list => true
  | .dict _, .dict => true
  | _, _ => false

/-- `arg is None`. -/
def pyIsNone : PyValue → Bool
  | .none => true
  | _ => false

/-- Python iteration `for elem in arg`: lists yield their elements, dicts
their keys, strings their characters (as one-character strings); other values
are not iterable (`none` result). -/
def elemsOf : PyValue → Option (List PyValue)
  | .list xs => some xs
  | .dict kvs => some (kvs.map Prod.fst)
  | .str s => some (s.toList.map (fun c => PyValue.str (String.mk [c])))
  | _ => Option.none

/-- Python `len`, defined on strings, lists and dicts. -/
def pyLen : PyValue → Option Nat
  | .str s => some s.toList.length
  | .list xs => some xs.length
  | .dict kvs => some kvs.length
  | _ => Option.none

/-- Python truthiness of the values above (`bool(v)`).  A float token is falsy
exactly when it denotes zero; only the two spellings that occur in catalogs
are recognised. -/
def truthy : PyValue → Bool
  | .none => false
  | .bool b => b
  | .int n => n != 0
  | .float t => !(t == "0.0" || t == "0")
  | .str s => !s.toList.isEmpty
  | .list xs => !xs.isEmpty
  | .dict kvs => !kvs.isEmpty

/-- One parameter definition from the method catalog: the dict
`{name, type, required, null, default?}` (`default` records whether the
`default` key is present). -/
structure ParamDef where
  name : String
  type : String
  required : Bool
  null : Bool
  default : Option PyValue := Option.none

/-- `param_def.get('default')`: the dict value when the key is present and
`None` otherwise. -/
def defaultOf (p : ParamDef) : PyValue :=
  p.default.getD PyValue.none

/-- Errors raised by `validate_param`: `TypeError` with its message, or
`AttributeError` from `getattr(builtins, name)` on an unknown type name. -/
inductive ValidationError where
  | typeError (msg : String)
  | attributeError (missingName : String)
  deriving DecidableEq, Repr

/-- `getattr(builtins, name)` restricted to the classes used as parameter
types. -/
def builtinsLookup : String → Option PyType
  | "bool" => some .bool
  | "int" => some .int
  | "float" => some .float
  | "str" => some .str
  | "list" => some .list
  | "dict" => some .dict
  | _ => Option.none

/-- `str.split(sep)` for a one-character separator, on the character list. -/
def splitOnChar (c : Char) : List Char → List (List Char)
  | [] => [[]]
  | x :: xs =>
    if x = c then [] :: splitOnChar c xs
    else
      match splitOnChar c xs with
      | [] => [[x]]
      | g :: gs => (x :: g) :: gs

/-- Step 2 of `validate_param`: resolve the declared type string.  If the
string contains `[`, the base type is the part before the first `[` and the
item type is `split('[')[1][:-1]`; otherwise the whole string is the base
type.  An unknown class name raises `AttributeError`. -/
def resolveTypes (s : String) : Except ValidationError (PyType × Option PyType) :=
  if (s.toList.contains '[') then
    let parts := splitOnChar '[' s.toList
    let baseName := String.mk (parts.headD [])
    let itemName := String.mk ((parts.get? 1).getD []).dropLast
    match builtinsLookup baseName with
    | Option.none => .error (.attributeError baseName)
    | some bt =>
      match builtinsLookup itemName with
      | Option.none => .error (.attributeError itemName)
      | some it => .ok (bt, some it)
  else
    match builtinsLookup s with
    | Option.none => .error (.attributeError s)
    | some bt => .ok (bt, Option.none)

/-- `_SupportedMethod.validate_param` (rpc.py lines 58-114): checks one
argument against one parameter definition.
1. a `None` argument for a nullable parameter is accepted outright;
2. the declared type string is resolved (`resolveTypes`);
3. the argument must be an instance of the base type;
4. for container types, every item must be an instance of the item type;
5. a zero-length string/list/dict for a non-nullable parameter is rejected
   as empty. -/
def validate_param (arg : PyValue) (pd : ParamDef) : Except ValidationError Unit :=
  if pyIsNone arg && pd.null then .ok ()
  else
    match resolveTypes pd.type with
    | .error e => .error e
    | .ok (pt, pit) =>
      if !(isinstance arg pt) then
        .error (.typeError ("Expected " ++ pd.type ++ " for arg " ++ pd.name ++
          ", got " ++ typeName arg))
      else
        match pit with
        | some it =>
          match elemsOf arg with
          | Option.none =>
            .error (.typeError ("\x27" ++ typeName arg ++
              "\x27 object is not iterable"))
          | some es =>
            if !(es.all (fun e => isinstance e it)) then
              .error (.typeError ("Expected " ++ pd.type ++ " for arg " ++
                pd.name ++ ", got wrong item type"))
            else
              if (pt = PyType.list ∨ pt = PyType.dict ∨ pt = PyType.str) ∧
                  pd.null = false ∧ pyLen arg = some 0 then
                .error (.typeError ("Expected non-empty " ++ typeNameOfTy pt ++
                  " for arg " ++ pd.name ++ ", got empty " ++ typeName arg))
              else .ok ()
        | Option.none =>
          if (pt = PyType.list ∨ pt = PyType.dict ∨ pt = PyType.str) ∧
              pd.null = false ∧ pyLen arg = some 0 then
            .error (.typeError ("Expected non-empty " ++ typeNameOfTy pt ++
              " for arg " ++ pd.name ++ ", got empty " ++ typeName arg))
          else .ok ()

example : resolveTypes "list[str]" = .ok (.list, some .str) := rfl

example : resolveTypes "str" = .ok (.str, Option.none) := rfl

example :
    validate_param (.str "") ⟨"s", "str", true, false, Option.none⟩ =
      .error (.typeError "Expected non-empty str for arg s, got empty str") := rfl

example :
    validate_param (.list [.str "a", .int 3]) ⟨"l", "list[str]", true, false, Option.none⟩ =
      .error (.typeError "Expected list[str] for arg l, got wrong item type") := rfl

example :
    validate_param (.int 3) ⟨"b", "bool", true, false, Option.none⟩ =
      .error (.typeError "Expected bool for arg b, got int") := rfl

example :
    validate_param PyValue.none ⟨"s", "str", true, true, Option.none⟩ = .ok () := rfl

/-! ## The call binder (`_SupportedMethod.__call__`, rpc.py lines 117-197) -/

/-- The `TypeError`s raised while binding a call, with the data interpolated
into their messages:
* `tooManyArgs mn maxParams got` —
  `"{mn} expected at most {maxParams} arguments, got {got}"`;
* `unexpectedKeyword mn kw` —
  `"{mn}() got an unexpected keyword argument '{kw}'"`;
* `invalidArgument e` — the `TypeError`/`AttributeError` from
  `validate_param`;
* `missingArgument mn param` — `"{mn} missing argument '{param}'"`. -/
inductive BindError where
  | tooManyArgs (methodName : String) (maxParams got : Nat)
  | unexpectedKeyword (methodName : String) (kw : String)
  | invalidArgument (e : ValidationError)
  | missingArgument (methodName : String) (param : String)
  deriving DecidableEq, Repr

/-- Step 1a of `__call__`: walk the positional arguments against the pending
parameters in order, validating each; raise the arity error when the
parameters run out (`len(params) == current_param`).  Returns the parameters
left over (`params[current_param:]`). -/
def posValidate (mn : String) (pending : List ParamDef) (args : List PyValue)
    (maxP total : Nat) : Except BindError (List ParamDef) :=
  match args, pending with
  | [], _ => .ok pending
  | _ :: _, [] => .error (.tooManyArgs mn maxP total)
  | a :: rest, pd :: prest =>
    match validate_param a pd with
    | .error e => .error (.invalidArgument e)
    | .ok _ => posValidate mn prest rest maxP total

/-- The pool of parameters not consumed positionally, each paired with its
index in the full contract
(`{p.name: {**p, 'index': i + current_param} for i, p in enumerate(...)}`). -/
def poolOf : List ParamDef → Nat → List (ParamDef × Nat)
  | [], _ => []
  | p :: rest, i => (p, i) :: poolOf rest (i + 1)

/-- `param_pool.get(kwarg)`: dict lookup on the comprehension above.  A dict
built from a sequence of key/value pairs keeps the last value for a repeated
key, hence the lookup on the reversed list. -/
def poolGet (pool : List (ParamDef × Nat)) (n : String) : Option (ParamDef × Nat) :=
  pool.reverse.find? (fun q => q.1.name == n)

/-- `kwargs[n]` / `n in kwargs` on the caller's keyword dict (whose keys are
unique, as Python call syntax guarantees). -/
def kwLookup (kwargs : List (String × PyValue)) (n : String) : Option PyValue :=
  (kwargs.find? (fun kv => kv.1 == n)).map (fun kv => kv.2)

/-- `n in kwargs`. -/
def kwHas (kwargs : List (String × PyValue)) (n : String) : Bool :=
  kwargs.any (fun kv => kv.1 == n)

/-- Step 1b of `__call__`: iterate the keyword arguments in order; raise the
arity error when `len(params) == current_param`, the unexpected-keyword error
when the name is not in the pool, and otherwise validate.  Returns the final
`current_param`. -/
def kwLoop (mn : String) (maxP total : Nat) (pool : List (ParamDef × Nat))
    (kws : List (String × PyValue)) (current : Nat) : Except BindError Nat :=
  match kws with
  | [] => .ok current
  | (k, v) :: rest =>
    if maxP = current then .error (.tooManyArgs mn maxP total)
    else
      match poolGet pool k with
      | Option.none => .error (.unexpectedKeyword mn k)
      | some (pd, _) =>
        match validate_param v pd with
        | .error e => .error (.invalidArgument e)
        | .ok _ => kwLoop mn maxP total pool rest (current + 1)

/-- `[kwargs[p['name']] for p in param_pool.values() if p['name'] in kwargs]`. -/
def kwValues (pool : List (ParamDef × Nat)) (kwargs : List (String × PyValue)) :
    List PyValue :=
  pool.filterMap (fun q => kwLookup kwargs q.1.name)

/-- Python `list.insert(i, x)` (for `0 ≤ i`, clamping at the length). -/
def pyInsert {α : Type} (l : List α) (i : Nat) (x : α) : List α :=
  l.take i ++ x :: l.drop i

/-- Step 1c of `__call__`: for every pool parameter, in pool order —
if it is required, accepts null or has a truthy default
(`p[NULL] or p.get(DEFAULT)`), and was not passed by keyword, insert
`p.get(DEFAULT)` at its remembered index; if it is required, accepts neither,
and was not passed by keyword, raise the missing-argument error; otherwise
leave the vector alone. -/
def fillDefaults (mn : String) (pool : List (ParamDef × Nat))
    (kwargs : List (String × PyValue)) (vec : List PyValue) :
    Except BindError (List PyValue) :=
  match pool with
  | [] => .ok vec
  | (p, idx) :: rest =>
    if p.required && (p.null || truthy (defaultOf p)) && !(kwHas kwargs p.name) then
      fillDefaults mn rest kwargs (pyInsert vec idx (defaultOf p))
    else if p.required && !(p.null || truthy (defaultOf p)) && !(kwHas kwargs p.name) then
      .error (.missingArgument mn p.name)
    else
      fillDefaults mn rest kwargs vec

/-- The argument-binding part of `_SupportedMethod.__call__` (rpc.py lines
129-187): validate positional arguments, validate keyword arguments against
the pool of remaining parameters, assemble
`params_to_submit = list(args) + [kwargs[...] ...]`, then fill defaults/nulls
for omitted required parameters.  Produces the vector handed to the
transport, or the `TypeError` raised. -/
def bindCall (mn : String) (params : List ParamDef) (args : List PyValue)
    (kwargs : List (String × PyValue)) : Except BindError (List PyValue) :=
  let total := args.length + kwargs.length
  match posValidate mn params args params.length total with
  | .error e => .error e
  | .ok pending =>
    let pool := poolOf pending (params.length - pending.length)
    match kwLoop mn params.length total pool kwargs (params.length - pending.length) with
    | .error e => .error e
    | .ok _ => fillDefaults mn pool kwargs (args ++ kwValues pool kwargs)

/-- `Except` result tag (used to state that binding fails without naming the
particular error). -/
def exceptOk {ε α : Type} : Except ε α → Bool
  | .ok _ => true
  | .error _ => false

/-! ## Fault translation (`exceptions.py`) -/

/-- `xmlrpc.client.Fault`: an application-level fault from the remote side. -/
structure Fault where
  faultCode : Int
  faultString : String

/-- The exception classes defined in `pyovpn_as/api/exceptions.py` that
`translate_fault` can produce, with the message each carries.  `authError`
models the class `ApiClientAuthError` defined at the top of the file; note
that `translate_fault` never constructs it (see `translate_fault`). -/
inductive ApiClientError where
  | parameterError (msg : String)
  | authError (msg : String)
  | valueError (msg : String)
  | internalError (msg : String)
  | functionNotFoundError (msg : String)
  | usernameNotFoundError (msg : String)
  | unexpectedError (msg : String)
  deriving DecidableEq, Repr

/-- `s.startswith(pre)`. -/
def pyStartsWith (s pre : String) : Bool :=
  pre.toList.isPrefixOf s.toList

/-- `s.endswith(suf)`. -/
def pyEndsWith (s suf : String) : Bool :=
  suf.toList.isSuffixOf s.toList

/-- `s[n:]`. -/
def pyDropChars (s : String) (n : Nat) : String :=
  String.mk (s.toList.drop n)

/-- `'XMLRPCRelay: exceptions.ValueError: '`, the relay prefix tested on
fault code 9000. -/
def valueErrorMarker : String := "XMLRPCRelay: exceptions.ValueError: "

/-- `translate_fault` (exceptions.py lines 87-143) on an application-level
fault: the ordered decision list over `(faultCode, faultString)`.

The source's branch for fault code 9007 evaluates the name
`ApiCientAuthError` (note the missing `l`), which is defined nowhere in the
package — the defined class is `ApiClientAuthError`.  Evaluating that branch
therefore raises `NameError: name 'ApiCientAuthError' is not defined`,
modelled as `.error "ApiCientAuthError"`.  (The same misspelling appears at
line 53 of the source as the base class of `ApiClientPasswordIncorrectError`,
so importing the module fails with that `NameError` before `translate_fault`
is even defined.) -/
def translate_fault (err : Fault) : Except String ApiClientError :=
  if err.faultCode = 8002 then
    .ok (.parameterError "Number of parameters is incorrect")
  else if err.faultCode = 9007 then
    .error "ApiCientAuthError"
  else if err.faultCode = 9000 ∧ pyStartsWith err.faultString valueErrorMarker = true then
    .ok (.valueError ("ValueError from server: " ++
      pyDropChars err.faultString valueErrorMarker.toList.length))
  else if err.faultCode = 9000 ∧ err.faultString = "XMLRPC: internal error" then
    .ok (.internalError
      "Something unknown went wrong with that call that the server did not like")
  else if err.faultCode = 9000 ∧
      err.faultString = "XMLRPCRelay: XMLRPC: function not found" then
    .ok (.functionNotFoundError "Function not found on given server")
  else if err.faultCode = 9000 ∧
      pyStartsWith err.faultString "XMLRPCRelay: AUTHRPC_EXCEPT: CertDB: Username" = true ∧
      pyEndsWith err.faultString "not found" = true then
    .ok (.usernameNotFoundError "Username could not be found on the server")
  else
    .ok (.unexpectedError ("Something happened that we were not expecting.\n" ++
      "Fault Code: " ++ toString err.faultCode ++ "\n" ++
      "Fault String: \x22" ++ err.faultString ++ "\x22"))

/-- The outcome of a dispatched call: the transport's result, or the binding
`TypeError`, or the translated API error raised from the fault, or the
`NameError` escaping from `translate_fault`. -/
inductive CallError where
  | bindingError (e : BindError)
  | apiError (e : ApiClientError)
  | nameError (missingName : String)

/-- `_SupportedMethod.__call__` end to end: bind the arguments and, on
success, submit the vector to the transport; a fault raised by the transport
is run through `translate_fault` and the translation is raised in its place
(`fault == new_err` is always false there, since `translate_fault` applied to
a `Fault` always builds a fresh exception object). -/
def methodCall (send : List PyValue → Except Fault PyValue) (mn : String)
    (params : List ParamDef) (args : List PyValue)
    (kwargs : List (String × PyValue)) : Except CallError PyValue :=
  match bindCall mn params args kwargs with
  | .error e => .error (.bindingError e)
  | .ok vec =>
    match send vec with
    | .ok r => .ok r
    | .error f =>
      match translate_fault f with
      | .ok newErr => .error (.apiError newErr)
      | .error n => .error (.nameError n)

/-- The six-parameter contract from `test_rpc.py` (`test_method_def`), with
parameter types made concrete as `int` so that the real validator passes
where the test mocks it out. -/
def testParams : List ParamDef :=
  [ ⟨"required", "int", true, false, Option.none⟩,
    ⟨"required_null", "int", true, true, Option.none⟩,
    ⟨"required_default", "int", true, false, some (.str "default")⟩,
    ⟨"required_null_default", "int", true, true, some (.str "default")⟩,
    ⟨"not_required", "int", false, false, Option.none⟩,
    ⟨"not_required_2", "int", false, false, Option.none⟩ ]

example :
    bindCall "TestMethod" testParams []
      [("required", .int 1), ("required_default", .int 3),
       ("required_null_default", .int 4), ("not_required", .int 5)] =
      .ok [.int 1, PyValue.none, .int 3, .int 4, .int 5] := rfl

example :
    bindCall "TestMethod" testParams []
      [("required", .int 1), ("required_null", .int 2),
       ("required_null_default", .int 4), ("not_required", .int 5)] =
      .ok [.int 1, .int 2, .str "default", .int 4, .int 5] := rfl

example :
    bindCall "TestMethod" testParams
      [.int 1, .int 2, .int 3, .int 4, .int 5, .int 6, .int 7] [] =
      .error (.tooManyArgs "TestMethod" 6 7) := rfl

example :
    translate_fault ⟨9007, "whatever"⟩ = .error "ApiCientAuthError" := rfl

example :
    translate_fault ⟨9000, "XMLRPC: internal error"⟩ =
      .ok (.internalError
        "Something unknown went wrong with that call that the server did not like") := rfl

/-! ## Helper lemmas about the binder's phases -/

theorem posValidate_ok_of_valid (mn : String) :
    ∀ (args : List PyValue) (params : List ParamDef) (maxP total : Nat),
      (∀ pr ∈ args.zip params, validate_param pr.1 pr.2 = .ok ()) →
      args.length ≤ params.length →
      posValidate mn params args maxP total = .ok (params.drop args.length) := by
  intro args
  induction args with
  | nil => intro params maxP total _ _; simp [posValidate]
  | cons a rest ih =>
    intro params maxP total hv hlen
    cases params with
    | nil => simp at hlen
    | cons pd prest =>
      have h1 : validate_param a pd = .ok () :=
        hv (a, pd) (by rw [List.zip_cons_cons]; exact List.mem_cons_self _ _)
      have h2 : ∀ pr ∈ rest.zip prest, validate_param pr.1 pr.2 = .ok () := fun pr hpr =>
        hv pr (by rw [List.zip_cons_cons]; exact List.mem_cons_of_mem _ hpr)
      simp only [posValidate, h1]
      have := ih prest maxP total h2 (by simpa using hlen)
      simpa [List.drop_succ_cons] using this

theorem posValidate_ok_inv (mn : String) :
    ∀ (args : List PyValue) (params pending : List ParamDef) (maxP total : Nat),
      posValidate mn params args maxP total = .ok pending →
      pending = params.drop args.length ∧ args.length ≤ params.length := by
  intro args
  induction args with
  | nil => intro params pending maxP total h; simp [posValidate] at h; simp [h.symm]
  | cons a rest ih =>
    intro params pending maxP total h
    cases params with
    | nil => simp [posValidate] at h
    | cons pd prest =>
      simp only [posValidate] at h
      cases hv : validate_param a pd with
      | error e => rw [hv] at h; simp at h
      | ok u =>
        rw [hv] at h
        have := ih prest pending maxP total h
        exact ⟨this.1, by simpa using this.2⟩

theorem posValidate_overfull (mn : String) :
    ∀ (args : List PyValue) (params : List ParamDef) (maxP total : Nat),
      (∀ pr ∈ args.zip params, validate_param pr.1 pr.2 = .ok ()) →
      params.length < args.length →
      posValidate mn params args maxP total = .error (.tooManyArgs mn maxP total) := by
  intro args
  induction args with
  | nil => intro params maxP total _ hlen; simp at hlen
  | cons a rest ih =>
    intro params maxP total hv hlen
    cases params with
    | nil => simp [posValidate]
    | cons pd prest =>
      have h1 : validate_param a pd = .ok () :=
        hv (a, pd) (by rw [List.zip_cons_cons]; exact List.mem_cons_self _ _)
      have h2 : ∀ pr ∈ rest.zip prest, validate_param pr.1 pr.2 = .ok () := fun pr hpr =>
        hv pr (by rw [List.zip_cons_cons]; exact List.mem_cons_of_mem _ hpr)
      simp only [posValidate, h1]
      exact ih prest maxP total h2 (by simpa using hlen)

theorem kwLoop_ok (mn : String) (maxP total : Nat) (pool : List (ParamDef × Nat)) :
    ∀ (kws : List (String × PyValue)) (current : Nat),
      current + kws.length ≤ maxP →
      (∀ kv ∈ kws, ∃ q, poolGet pool kv.1 = some q ∧ validate_param kv.2 q.1 = .ok ()) →
      kwLoop mn maxP total pool kws current = .ok (current + kws.length) := by
  intro kws
  induction kws with
  | nil => intro current _ _; simp [kwLoop]
  | cons kv rest ih =>
    intro current hcnt hfind
    obtain ⟨k, v⟩ := kv
    obtain ⟨⟨pd, i⟩, hget, hval⟩ := hfind (k, v) (by simp)
    simp only at hget hval
    simp only [List.length_cons] at hcnt
    have hne : ¬ maxP = current := by omega
    simp only [kwLoop, if_neg hne, hget, hval]
    simp only [List.length_cons]
    have heq : current + (rest.length + 1) = (current + 1) + rest.length := by omega
    rw [heq]
    exact ih (current + 1) (by omega) (fun kv2 h2 => hfind kv2 (by simp [h2]))

theorem kwLoop_overfull (mn : String) (maxP total : Nat) (pool : List (ParamDef × Nat)) :
    ∀ (kws : List (String × PyValue)) (current : Nat),
      current ≤ maxP → maxP < current + kws.length →
      exceptOk (kwLoop mn maxP total pool kws current) = false := by
  intro kws
  induction kws with
  | nil =>
    intro current hle hgt
    simp only [List.length_nil, Nat.add_zero] at hgt
    exact absurd hgt (by omega)
  | cons kv rest ih =>
    intro current hle hgt
    obtain ⟨k, v⟩ := kv
    simp only [List.length_cons] at hgt
    by_cases he : maxP = current
    · simp [kwLoop, he, exceptOk]
    · cases hget : poolGet pool k with
      | none => simp [kwLoop, if_neg he, hget, exceptOk]
      | some q =>
        obtain ⟨pd, i⟩ := q
        cases hval : validate_param v pd with
        | error e => simp [kwLoop, if_neg he, hget, hval, exceptOk]
        | ok u =>
          simp only [kwLoop, if_neg he, hget, hval]
          exact ih (current + 1) (by omega) (by omega)

theorem poolOf_append : ∀ (l₁ l₂ : List ParamDef) (s : Nat),
    poolOf (l₁ ++ l₂) s = poolOf l₁ s ++ poolOf l₂ (s + l₁.length) := by
  intro l₁
  induction l₁ with
  | nil => intro l₂ s; simp [poolOf]
  | cons p rest ih =>
    intro l₂ s
    simp only [List.cons_append, poolOf, List.append_eq, ih, List.length_cons]
    have h : s + 1 + rest.length = s + (rest.length + 1) := by omega
    rw [h]

theorem poolOf_map_fst : ∀ (l : List ParamDef) (s : Nat),
    (poolOf l s).map Prod.fst = l := by
  intro l
  induction l with
  | nil => intro s; simp [poolOf]
  | cons p rest ih => intro s; simp [poolOf, ih]

theorem mem_poolOf_fst {q : ParamDef × Nat} :
    ∀ {l : List ParamDef} {s : Nat}, q ∈ poolOf l s → q.1 ∈ l := by
  intro l s h
  have : q.1 ∈ (poolOf l s).map Prod.fst := List.mem_map_of_mem Prod.fst h
  rwa [poolOf_map_fst] at this

theorem exists_mem_poolOf {p : ParamDef} :
    ∀ {l : List ParamDef} (s : Nat), p ∈ l → ∃ i, (p, i) ∈ poolOf l s := by
  intro l
  induction l with
  | nil => intro s h; simp at h
  | cons hd tl ih =>
    intro s h
    rcases List.mem_cons.mp h with h1 | h2
    · exact ⟨s, by simp [poolOf, h1]⟩
    · obtain ⟨i, hi⟩ := ih (s + 1) h2
      exact ⟨i, by simp [poolOf, hi]⟩

theorem find?_unique {α : Type} (pred : α → Bool) {x : α} :
    ∀ {l : List α}, x ∈ l → pred x = true →
      (∀ y ∈ l, pred y = true → y = x) → l.find? pred = some x := by
  intro l
  induction l with
  | nil => intro h; simp at h
  | cons hd tl ih =>
    intro hmem hx huniq
    by_cases hp : pred hd = true
    · have heq : hd = x := huniq hd (by simp) hp
      subst heq
      simp [List.find?, hp]
    · have hne : hd ≠ x := fun he => hp (he ▸ hx)
      have hmem2 : x ∈ tl := by
        rcases List.mem_cons.mp hmem with h1 | h2
        · exact absurd h1.symm hne
        · exact h2
      rw [List.find?_cons_of_neg _ hp]
      exact ih hmem2 hx (fun y hy => huniq y (by simp [hy]))

theorem poolGet_eq_of_mem {pool : List (ParamDef × Nat)} {x : ParamDef × Nat}
    (hnd : (pool.map (fun q => q.1.name)).Nodup) (hx : x ∈ pool) :
    poolGet pool x.1.name = some x := by
  unfold poolGet
  apply find?_unique
  · exact List.mem_reverse.mpr hx
  · simp
  · intro y hy hpy
    have hyname : y.1.name = x.1.name := by simpa using hpy
    exact List.inj_on_of_nodup_map hnd (List.mem_reverse.mp hy) hx hyname

theorem length_filterMap_of_some {α β : Type} (f : α → Option β) :
    ∀ (l : List α), (∀ x ∈ l, (f x).isSome) → (l.filterMap f).length = l.length := by
  intro l
  induction l with
  | nil => intro _; simp
  | cons hd tl ih =>
    intro h
    have hhd := h hd (by simp)
    cases hf : f hd with
    | none => rw [hf] at hhd; simp at hhd
    | some b =>
      rw [List.filterMap_cons_some hf]
      simp only [List.length_cons]
      rw [ih (fun x hx => h x (by simp [hx]))]

theorem fillDefaults_skip (mn : String) (kwargs : List (String × PyValue)) :
    ∀ (pool₁ pool₂ : List (ParamDef × Nat)) (vec : List PyValue),
      (∀ q ∈ pool₁, kwHas kwargs q.1.name = true) →
      fillDefaults mn (pool₁ ++ pool₂) kwargs vec = fillDefaults mn pool₂ kwargs vec := by
  intro pool₁
  induction pool₁ with
  | nil => intro pool₂ vec _; simp
  | cons q rest ih =>
    intro pool₂ vec h
    have hq : kwHas kwargs q.1.name = true := h q (by simp)
    cases q with
    | mk p i =>
      simp only at hq
      simp only [List.cons_append, fillDefaults, hq]
      simp only [Bool.not_true, Bool.and_false]
      exact ih pool₂ vec (fun q2 h2 => h q2 (by simp [h2]))

theorem fillDefaults_reach (mn : String) (kwargs : List (String × PyValue)) :
    ∀ (pool₁ pool₂ : List (ParamDef × Nat)) (vec : List PyValue),
      (∀ q ∈ pool₁, q.1.required = true →
        (q.1.null || truthy (defaultOf q.1)) = false → kwHas kwargs q.1.name = true) →
      ∃ v, fillDefaults mn (pool₁ ++ pool₂) kwargs vec = fillDefaults mn pool₂ kwargs v := by
  intro pool₁
  induction pool₁ with
  | nil => intro pool₂ vec _; exact ⟨vec, by simp⟩
  | cons q rest ih =>
    intro pool₂ vec h
    cases q with
    | mk p i =>
      by_cases h1 : (p.required && (p.null || truthy (defaultOf p)) && !(kwHas kwargs p.name)) = true
      · simp only [List.cons_append, fillDefaults, h1, if_pos]
        exact ih pool₂ (pyInsert vec i (defaultOf p)) (fun q2 h2 hr hn => h q2 (by simp [h2]) hr hn)
      · have h2 : (p.required && !(p.null || truthy (defaultOf p)) && !(kwHas kwargs p.name)) = false := by
          by_cases hr : p.required = true
          · by_cases hn : (p.null || truthy (defaultOf p)) = true
            · simp [hn]
            · have := h (p, i) (by simp) hr (by simpa using hn)
              simp [this]
          · simp [Bool.eq_false_iff.mpr hr]
        simp only [List.cons_append, fillDefaults, h1, h2, if_neg, Bool.false_eq_true,
          if_false]
        exact ih pool₂ vec (fun q2 hq2 hr hn => h q2 (by simp [hq2]) hr hn)

theorem pyInsert_getElem_self {α : Type} (x : α) (l : List α) (i : Nat)
    (h : i ≤ l.length) : (pyInsert l i x)[i]? = some x := by
  unfold pyInsert
  have hlen : (l.take i).length = i := by simp [List.length_take]; omega
  rw [List.getElem?_append_right (by omega)]
  simp [hlen]

theorem poolOf_length : ∀ (l : List ParamDef) (s : Nat),
    (poolOf l s).length = l.length := by
  intro l
  induction l with
  | nil => intro s; simp [poolOf]
  | cons p rest ih => intro s; simp [poolOf, ih]

theorem poolOf_map_name : ∀ (l : List ParamDef) (s : Nat),
    (poolOf l s).map (fun q => q.1.name) = l.map ParamDef.name := by
  intro l
  induction l with
  | nil => intro s; simp [poolOf]
  | cons p rest ih => intro s; simp [poolOf, ih]

theorem kwHas_eq_false_iff {kwargs : List (String × PyValue)} {n : String} :
    kwHas kwargs n = false ↔ ∀ kv ∈ kwargs, kv.1 ≠ n := by
  unfold kwHas
  rw [List.any_eq_false]
  constructor
  · intro h kv hkv he
    exact h kv hkv (by simp [he])
  · intro h kv hkv hb
    exact h kv hkv (by simpa using hb)

theorem kwLookup_eq_none {kwargs : List (String × PyValue)} {n : String}
    (h : kwHas kwargs n = false) : kwLookup kwargs n = Option.none := by
  have hf : kwargs.find? (fun kv => kv.1 == n) = Option.none :=
    List.find?_eq_none.mpr (fun kv hkv hb =>
      (kwHas_eq_false_iff.mp h) kv hkv (by simpa using hb))
  unfold kwLookup
  rw [hf]
  rfl

theorem kwHas_of_lookup {kwargs : List (String × PyValue)} {n : String} {v : PyValue}
    (h : kwLookup kwargs n = some v) : kwHas kwargs n = true := by
  unfold kwLookup at h
  cases hf : kwargs.find? (fun kv => kv.1 == n) with
  | none => rw [hf] at h; simp at h
  | some kv =>
    have hmem := List.mem_of_find?_eq_some hf
    have hp := List.find?_some hf
    unfold kwHas
    exact List.any_eq_true.mpr ⟨kv, hmem, hp⟩

theorem drop_append_of_le {α : Type} :
    ∀ (l₁ l₂ : List α) (n : Nat), n ≤ l₁.length →
      (l₁ ++ l₂).drop n = l₁.drop n ++ l₂ := by
  intro l₁
  induction l₁ with
  | nil => intro l₂ n h; simp at h; simp [h]
  | cons hd tl ih =>
    intro l₂ n h
    cases n with
    | zero => simp
    | succ m => simp only [List.cons_append, List.drop_succ_cons]; exact ih l₂ m (by simpa using h)

/-! ## The two central binding scenarios -/

/-- The vector `__call__` submits when exactly one pool parameter (the one at
contract position `k`) is synthesized from its default/null rather than
supplied: `list(args)`, then the keyword values in pool order, with the
synthesized value `d` inserted at index `k`. -/
def filledVector (params : List ParamDef) (args : List PyValue)
    (kwargs : List (String × PyValue)) (k : Nat) (d : PyValue) : List PyValue :=
  pyInsert (args ++ kwValues (poolOf (params.drop args.length) args.length) kwargs) k d

/-- Scenario A: in a contract `pre ++ p :: post` with distinct parameter
names, `p` is required, omitted by the caller, and either nullable or
carrying a truthy default; every other parameter is supplied (positionally
for a prefix of `pre`, by keyword for the rest) with values that validate.
Then binding succeeds and `p.get('default')` sits at `p`'s contract position
`pre.length` of the produced vector. -/
theorem bind_inserts_omitted (mn : String) (pre post : List ParamDef) (p : ParamDef)
    (args : List PyValue) (kwargs : List (String × PyValue))
    (hnd : ((pre ++ p :: post).map ParamDef.name).Nodup)
    (ha : args.length ≤ pre.length)
    (hargs : ∀ pr ∈ args.zip (pre ++ p :: post), validate_param pr.1 pr.2 = .ok ())
    (hkwnd : (kwargs.map Prod.fst).Nodup)
    (hpn : kwHas kwargs p.name = false)
    (hreq : p.required = true)
    (hok : (p.null || truthy (defaultOf p)) = true)
    (hother : ∀ q ∈ pre.drop args.length ++ post,
      ∃ v, kwLookup kwargs q.name = some v ∧ validate_param v q = .ok ())
    (hkw : ∀ kv ∈ kwargs, ∃ q, q ∈ (pre ++ p :: post).drop args.length ∧
      q.name = kv.1 ∧ validate_param kv.2 q = .ok ()) :
    bindCall mn (pre ++ p :: post) args kwargs =
      .ok (filledVector (pre ++ p :: post) args kwargs pre.length (defaultOf p)) ∧
    (filledVector (pre ++ p :: post) args kwargs pre.length (defaultOf p))[pre.length]? =
      some (defaultOf p) := by
  have hlen : (pre ++ p :: post).length = pre.length + (post.length + 1) := by simp
  have ha' : args.length ≤ (pre ++ p :: post).length := by omega
  have hpos := posValidate_ok_of_valid mn args (pre ++ p :: post)
    (pre ++ p :: post).length (args.length + kwargs.length) hargs ha'
  have hdrop : (pre ++ p :: post).drop args.length =
      pre.drop args.length ++ p :: post := drop_append_of_le pre (p :: post) args.length ha
  have hpool : poolOf ((pre ++ p :: post).drop args.length) args.length =
      poolOf (pre.drop args.length) args.length ++
        (p, pre.length) :: poolOf post (pre.length + 1) := by
    rw [hdrop, poolOf_append]
    have h1 : args.length + (pre.drop args.length).length = pre.length := by
      simp only [List.length_drop]; omega
    rw [h1]
    rfl
  have hdropnodup : (((pre ++ p :: post).drop args.length).map ParamDef.name).Nodup := by
    rw [List.map_drop]
    exact List.Nodup.sublist (List.drop_sublist _ _) hnd
  have hpoolnd : ((poolOf ((pre ++ p :: post).drop args.length) args.length).map
      (fun q => q.1.name)).Nodup := by
    rw [poolOf_map_name]; exact hdropnodup
  have hpmem : p ∈ (pre ++ p :: post).drop args.length := by rw [hdrop]; simp
  have hcount : args.length + kwargs.length ≤ (pre ++ p :: post).length := by
    have hsub : (kwargs.map Prod.fst) ⊆
        ((((pre ++ p :: post).drop args.length).map ParamDef.name).erase p.name) := by
      intro n hn
      obtain ⟨kv, hkv, hkv1⟩ := List.mem_map.mp hn
      obtain ⟨q, hqmem, hqname, _⟩ := hkw kv hkv
      have hne : n ≠ p.name := fun he =>
        (kwHas_eq_false_iff.mp hpn) kv hkv (by rw [hkv1, he])
      rw [List.mem_erase_of_ne hne]
      exact List.mem_map.mpr ⟨q, hqmem, by rw [hqname, hkv1]⟩
    have hsp := (List.Nodup.subperm hkwnd hsub).length_le
    have hmem2 : p.name ∈ ((pre ++ p :: post).drop args.length).map ParamDef.name :=
      List.mem_map.mpr ⟨p, hpmem, rfl⟩
    have hel := List.length_erase_of_mem hmem2
    have hld : (((pre ++ p :: post).drop args.length).map ParamDef.name).length =
        (pre ++ p :: post).length - args.length := by simp
    have hkl : (kwargs.map Prod.fst).length = kwargs.length := by simp
    omega
  have hfind : ∀ kv ∈ kwargs,
      ∃ q, poolGet (poolOf ((pre ++ p :: post).drop args.length) args.length) kv.1 = some q ∧
        validate_param kv.2 q.1 = .ok () := by
    intro kv hkv
    obtain ⟨q, hqmem, hqname, hqval⟩ := hkw kv hkv
    obtain ⟨i, hqi⟩ := exists_mem_poolOf args.length hqmem
    refine ⟨(q, i), ?_, hqval⟩
    have hg := poolGet_eq_of_mem hpoolnd hqi
    simpa [hqname] using hg
  have hkwloop := kwLoop_ok mn (pre ++ p :: post).length (args.length + kwargs.length)
    (poolOf ((pre ++ p :: post).drop args.length) args.length) kwargs args.length
    hcount hfind
  have hcur : (pre ++ p :: post).length -
      ((pre ++ p :: post).drop args.length).length = args.length := by
    simp only [List.length_drop]; omega
  have hbind : bindCall mn (pre ++ p :: post) args kwargs =
      fillDefaults mn (poolOf ((pre ++ p :: post).drop args.length) args.length) kwargs
        (args ++ kwValues (poolOf ((pre ++ p :: post).drop args.length) args.length) kwargs) := by
    simp only [bindCall, hpos, hcur, hkwloop]
  have hpl : kwLookup kwargs p.name = Option.none := kwLookup_eq_none hpn
  have hAsome : ∀ q ∈ poolOf (pre.drop args.length) args.length,
      (kwLookup kwargs q.1.name).isSome := by
    intro q hq
    obtain ⟨v, hl, _⟩ := hother q.1 (List.mem_append.mpr (Or.inl (mem_poolOf_fst hq)))
    rw [hl]; rfl
  have hBsome : ∀ q ∈ poolOf post (pre.length + 1),
      (kwLookup kwargs q.1.name).isSome := by
    intro q hq
    obtain ⟨v, hl, _⟩ := hother q.1 (List.mem_append.mpr (Or.inr (mem_poolOf_fst hq)))
    rw [hl]; rfl
  have hkvdec : kwValues (poolOf ((pre ++ p :: post).drop args.length) args.length) kwargs =
      kwValues (poolOf (pre.drop args.length) args.length) kwargs ++
      kwValues (poolOf post (pre.length + 1)) kwargs := by
    rw [hpool]
    unfold kwValues
    rw [List.filterMap_append, List.filterMap_cons_none]
    simpa using hpl
  have hlenA : (kwValues (poolOf (pre.drop args.length) args.length) kwargs).length =
      pre.length - args.length := by
    unfold kwValues
    rw [length_filterMap_of_some _ _ hAsome, poolOf_length]
    simp
  have hlenB : (kwValues (poolOf post (pre.length + 1)) kwargs).length = post.length := by
    unfold kwValues
    rw [length_filterMap_of_some _ _ hBsome, poolOf_length]
  have hveclen : (args ++ kwValues
      (poolOf ((pre ++ p :: post).drop args.length) args.length) kwargs).length =
      args.length + ((pre.length - args.length) + post.length) := by
    rw [List.length_append, hkvdec, List.length_append, hlenA, hlenB]
  have hAskip : ∀ q ∈ poolOf (pre.drop args.length) args.length,
      kwHas kwargs q.1.name = true := by
    intro q hq
    obtain ⟨v, hl, _⟩ := hother q.1 (List.mem_append.mpr (Or.inl (mem_poolOf_fst hq)))
    exact kwHas_of_lookup hl
  have hBskip : ∀ q ∈ poolOf post (pre.length + 1),
      kwHas kwargs q.1.name = true := by
    intro q hq
    obtain ⟨v, hl, _⟩ := hother q.1 (List.mem_append.mpr (Or.inr (mem_poolOf_fst hq)))
    exact kwHas_of_lookup hl
  have hc1 : (p.required && (p.null || truthy (defaultOf p)) && !(kwHas kwargs p.name)) = true := by
    rw [hreq, hok, hpn]; rfl
  have hfdgen : ∀ vec : List PyValue,
      fillDefaults mn (poolOf ((pre ++ p :: post).drop args.length) args.length) kwargs vec =
      .ok (pyInsert vec pre.length (defaultOf p)) := by
    intro vec
    rw [hpool]
    rw [fillDefaults_skip mn kwargs _ _ _ hAskip]
    simp only [fillDefaults, hc1, if_pos]
    have hB := fillDefaults_skip mn kwargs (poolOf post (pre.length + 1)) []
      (pyInsert vec pre.length (defaultOf p)) hBskip
    rw [List.append_nil] at hB
    rw [hB]
    rfl
  refine ⟨by rw [hbind, hfdgen]; rfl, ?_⟩
  unfold filledVector
  exact pyInsert_getElem_self _ _ _ (by rw [hveclen]; omega)

/-- Scenario B: in a contract `pre ++ p :: post` with distinct parameter
names, `p` is required, omitted by the caller, not nullable, and without a
truthy default; the positional arguments cover a prefix of `pre` and
validate; every keyword argument names a pool parameter and validates; and
every parameter of `pre` past the positional ones that would itself trip the
missing-argument branch is supplied by keyword.  Then binding raises the
missing-argument error naming `p`. -/
theorem bind_raises_missing (mn : String) (pre post : List ParamDef) (p : ParamDef)
    (args : List PyValue) (kwargs : List (String × PyValue))
    (hnd : ((pre ++ p :: post).map ParamDef.name).Nodup)
    (ha : args.length ≤ pre.length)
    (hargs : ∀ pr ∈ args.zip (pre ++ p :: post), validate_param pr.1 pr.2 = .ok ())
    (hkwnd : (kwargs.map Prod.fst).Nodup)
    (hpn : kwHas kwargs p.name = false)
    (hreq : p.required = true)
    (hno : (p.null || truthy (defaultOf p)) = false)
    (hpre : ∀ q ∈ pre.drop args.length, q.required = true →
      (q.null || truthy (defaultOf q)) = false → kwHas kwargs q.name = true)
    (hkw : ∀ kv ∈ kwargs, ∃ q, q ∈ (pre ++ p :: post).drop args.length ∧
      q.name = kv.1 ∧ validate_param kv.2 q = .ok ()) :
    bindCall mn (pre ++ p :: post) args kwargs =
      .error (.missingArgument mn p.name) := by
  have hlen : (pre ++ p :: post).length = pre.length + (post.length + 1) := by simp
  have ha' : args.length ≤ (pre ++ p :: post).length := by omega
  have hpos := posValidate_ok_of_valid mn args (pre ++ p :: post)
    (pre ++ p :: post).length (args.length + kwargs.length) hargs ha'
  have hdrop : (pre ++ p :: post).drop args.length =
      pre.drop args.length ++ p :: post := drop_append_of_le pre (p :: post) args.length ha
  have hpool : poolOf ((pre ++ p :: post).drop args.length) args.length =
      poolOf (pre.drop args.length) args.length ++
        (p, pre.length) :: poolOf post (pre.length + 1) := by
    rw [hdrop, poolOf_append]
    have h1 : args.length + (pre.drop args.length).length = pre.length := by
      simp only [List.length_drop]; omega
    rw [h1]
    rfl
  have hdropnodup : (((pre ++ p :: post).drop args.length).map ParamDef.name).Nodup := by
    rw [List.map_drop]
    exact List.Nodup.sublist (List.drop_sublist _ _) hnd
  have hpoolnd : ((poolOf ((pre ++ p :: post).drop args.length) args.length).map
      (fun q => q.1.name)).Nodup := by
    rw [poolOf_map_name]; exact hdropnodup
  have hcount : args.length + kwargs.length ≤ (pre ++ p :: post).length := by
    have hsub : (kwargs.map Prod.fst) ⊆
        ((pre ++ p :: post).drop args.length).map ParamDef.name := by
      intro n hn
      obtain ⟨kv, hkv, hkv1⟩ := List.mem_map.mp hn
      obtain ⟨q, hqmem, hqname, _⟩ := hkw kv hkv
      exact List.mem_map.mpr ⟨q, hqmem, by rw [hqname, hkv1]⟩
    have hsp := (List.Nodup.subperm hkwnd hsub).length_le
    have hld : (((pre ++ p :: post).drop args.length).map ParamDef.name).length =
        (pre ++ p :: post).length - args.length := by simp
    have hkl : (kwargs.map Prod.fst).length = kwargs.length := by simp
    omega
  have hfind : ∀ kv ∈ kwargs,
      ∃ q, poolGet (poolOf ((pre ++ p :: post).drop args.length) args.length) kv.1 = some q ∧
        validate_param kv.2 q.1 = .ok () := by
    intro kv hkv
    obtain ⟨q, hqmem, hqname, hqval⟩ := hkw kv hkv
    obtain ⟨i, hqi⟩ := exists_mem_poolOf args.length hqmem
    refine ⟨(q, i), ?_, hqval⟩
    have hg := poolGet_eq_of_mem hpoolnd hqi
    simpa [hqname] using hg
  have hkwloop := kwLoop_ok mn (pre ++ p :: post).length (args.length + kwargs.length)
    (poolOf ((pre ++ p :: post).drop args.length) args.length) kwargs args.length
    hcount hfind
  have hcur : (pre ++ p :: post).length -
      ((pre ++ p :: post).drop args.length).length = args.length := by
    simp only [List.length_drop]; omega
  have hbind : bindCall mn (pre ++ p :: post) args kwargs =
      fillDefaults mn (poolOf ((pre ++ p :: post).drop args.length) args.length) kwargs
        (args ++ kwValues (poolOf ((pre ++ p :: post).drop args.length) args.length) kwargs) := by
    simp only [bindCall, hpos, hcur, hkwloop]
  have hApre : ∀ q ∈ poolOf (pre.drop args.length) args.length,
      q.1.required = true → (q.1.null || truthy (defaultOf q.1)) = false →
      kwHas kwargs q.1.name = true := fun q hq => hpre q.1 (mem_poolOf_fst hq)
  have hc1 : (p.required && (p.null || truthy (defaultOf p)) && !(kwHas kwargs p.name)) = false := by
    rw [hno]; simp
  have hc2 : (p.required && !(p.null || truthy (defaultOf p)) && !(kwHas kwargs p.name)) = true := by
    rw [hreq, hno, hpn]; rfl
  have herrgen : ∀ vec : List PyValue,
      fillDefaults mn (poolOf ((pre ++ p :: post).drop args.length) args.length) kwargs vec =
      .error (.missingArgument mn p.name) := by
    intro vec
    rw [hpool]
    obtain ⟨v2, hreach⟩ := fillDefaults_reach mn kwargs
      (poolOf (pre.drop args.length) args.length)
      ((p, pre.length) :: poolOf post (pre.length + 1)) vec hApre
    rw [hreach]
    simp only [fillDefaults]
    rw [if_neg (fun h => Bool.false_ne_true (hc1 ▸ h)), if_pos hc2]
  rw [hbind, herrgen]

/-! ## Claim theorems -/

/-- C1: translating an application-level fault with code 9007 never yields the
`ApiClientAuthError` kind: the branch for code 9007 evaluates the misspelled,
undefined name `ApiCientAuthError`, so it raises `NameError` for every fault
string (and, for the same reason, importing the exceptions module fails at
the class definition on line 53). -/
theorem translate_fault_9007_raises_nameError (s : String) :
    translate_fault ⟨9007, s⟩ = .error "ApiCientAuthError" := rfl

/-- C3 (amended): binding a call with more positional+named arguments than
the contract has parameters always fails; and when the excess arguments are
all positional (no named arguments) and the in-range positional arguments
each pass validation, the failure is the arity error reporting the maximum
parameter count and the total argument count.  (With named arguments among
the excess, an unexpected-keyword or validation error can be reported
instead — see the counterexample.) -/
theorem bind_overfull_always_fails (mn : String) (params : List ParamDef)
    (args : List PyValue) (kwargs : List (String × PyValue)) :
    (params.length < args.length + kwargs.length →
      exceptOk (bindCall mn params args kwargs) = false) ∧
    (kwargs = [] → params.length < args.length →
      (∀ pr ∈ args.zip params, validate_param pr.1 pr.2 = .ok ()) →
      bindCall mn params args kwargs =
        .error (.tooManyArgs mn params.length args.length)) := by
  constructor
  · intro hlt
    cases hpv : posValidate mn params args params.length (args.length + kwargs.length) with
    | error e => simp [bindCall, hpv, exceptOk]
    | ok pending =>
      obtain ⟨hpend, hle⟩ := posValidate_ok_inv mn args params pending _ _ hpv
      have hcur : params.length - pending.length = args.length := by
        rw [hpend]; simp only [List.length_drop]; omega
      have hkw := kwLoop_overfull mn params.length (args.length + kwargs.length)
        (poolOf pending args.length) kwargs args.length hle (by omega)
      simp only [bindCall, hpv, hcur]
      cases hkl : kwLoop mn params.length (args.length + kwargs.length)
          (poolOf pending args.length) kwargs args.length with
      | error e => simp [exceptOk]
      | ok c => rw [hkl] at hkw; simp [exceptOk] at hkw
  · intro hk hlt hv
    subst hk
    have hpf := posValidate_overfull mn args params params.length
      (args.length + ([] : List (String × PyValue)).length) hv hlt
    simp only [bindCall, hpf]
    simp

/-- C4: a call that fills a parameter positionally and also passes a keyword
bearing that parameter's name fails, but with the unexpected-keyword error —
not the duplicate-argument error that `test_rpc.py`
(`test_duplicate_arg_kwarg_raises_TypeError`) expects.  This is the
six-parameter test contract with `required` bound positionally. -/
theorem duplicate_kwarg_reports_unexpected_keyword :
    bindCall "TestMethod" testParams [.int 1, .int 2, .int 3, .int 4]
      [("required", .str "duplicate value")] =
      .error (.unexpectedKeyword "TestMethod" "required") := rfl

/-- C5: omitting the not-required parameter `not_required` while supplying
the later parameter `not_required_2` by keyword does *not* fail: the binder
submits the five-element vector `[1, 2, 3, 4, 6]`, silently placing
`not_required_2`'s value at `not_required`'s position 4 — where
`test_rpc.py` (`test_skip_not_required_parameter_raises_TypeError`) expects
a `TypeError`. -/
theorem skip_not_required_binds_misaligned :
    bindCall "TestMethod" testParams []
      [("required", .int 1), ("required_null", .int 2), ("required_default", .int 3),
       ("required_null_default", .int 4), ("not_required_2", .int 6)] =
      .ok [.int 1, .int 2, .int 3, .int 4, .int 6] := rfl

/-- A one-parameter contract used by the arity witnesses. -/
def overfullParam : ParamDef := ⟨"a", "int", true, true, Option.none⟩

/-- C3 witness: two positional arguments against the one-parameter contract
fail, and with no keywords the failure is the arity error `(max 1, got 2)`. -/
theorem bind_overfull_witness :
    exceptOk (bindCall "f" [overfullParam] [.int 1, .int 2] []) = false ∧
    bindCall "f" [overfullParam] [.int 1, .int 2] [] =
      .error (.tooManyArgs "f" 1 2) := by
  have h := bind_overfull_always_fails "f" [overfullParam] [.int 1, .int 2] []
  exact ⟨h.1 (by decide), h.2 rfl (by decide) (by decide)⟩

/-- C3 counterexample: a call whose total argument count (2) exceeds the
parameter count (1) but whose first keyword is unknown fails with the
unexpected-keyword error, not the arity error the claim demands. -/
theorem overfull_call_not_arity_error :
    bindCall "f" [overfullParam] [] [("b", .int 1), ("a", .int 2)] =
      .error (.unexpectedKeyword "f" "b") ∧
    BindError.unexpectedKeyword "f" "b" ≠ BindError.tooManyArgs "f" 1 2 ∧
    [overfullParam].length <
      ([] : List PyValue).length + [("b", PyValue.int 1), ("a", PyValue.int 2)].length :=
  ⟨rfl, by decide, by decide⟩

/-- A required, non-nullable parameter whose declared default is the falsy
empty string. -/
def falsyDefaultParam : ParamDef := ⟨"a", "str", true, false, some (.str "")⟩

/-- C2 counterexample: the binder tests the default by truthiness, so a
required, non-nullable parameter defaulting to `""` is *not* synthesized —
omitting it raises the missing-argument error instead of binding the
default. -/
theorem falsy_default_not_inserted :
    bindCall "f" [falsyDefaultParam] [] [] = .error (.missingArgument "f" "a") ∧
    exceptOk (bindCall "f" [falsyDefaultParam] [] []) = false :=
  ⟨rfl, rfl⟩

/-- C2 (amended): for a required, non-nullable parameter with a *truthy*
default, every otherwise well-formed call omitting it binds successfully
with the default at the parameter's contract position `pre.length`. -/
theorem bind_omitted_truthy_default_inserted (mn : String) (pre post : List ParamDef)
    (p : ParamDef) (d : PyValue) (args : List PyValue)
    (kwargs : List (String × PyValue))
    (hnd : ((pre ++ p :: post).map ParamDef.name).Nodup)
    (ha : args.length ≤ pre.length)
    (hargs : ∀ pr ∈ args.zip (pre ++ p :: post), validate_param pr.1 pr.2 = .ok ())
    (hkwnd : (kwargs.map Prod.fst).Nodup)
    (hpn : kwHas kwargs p.name = false)
    (hreq : p.required = true)
    (hnull : p.null = false)
    (hdef : p.default = some d)
    (htr : truthy d = true)
    (hother : ∀ q ∈ pre.drop args.length ++ post,
      ∃ v, kwLookup kwargs q.name = some v ∧ validate_param v q = .ok ())
    (hkw : ∀ kv ∈ kwargs, ∃ q, q ∈ (pre ++ p :: post).drop args.length ∧
      q.name = kv.1 ∧ validate_param kv.2 q = .ok ()) :
    bindCall mn (pre ++ p :: post) args kwargs =
      .ok (filledVector (pre ++ p :: post) args kwargs pre.length d) ∧
    (filledVector (pre ++ p :: post) args kwargs pre.length d)[pre.length]? = some d := by
  have hdo : defaultOf p = d := by unfold defaultOf; rw [hdef]; rfl
  have h := bind_inserts_omitted mn pre post p args kwargs hnd ha hargs hkwnd hpn hreq
    (by rw [hdo, htr]; simp) hother hkw
  rwa [hdo] at h

/-- A required, non-nullable parameter with a truthy default. -/
def truthyDefaultParam : ParamDef := ⟨"a", "str", true, false, some (.str "x")⟩

/-- C2 witness: omitting the truthy-defaulted parameter binds `"x"` at
position 0. -/
theorem truthy_default_inserted_witness :
    bindCall "m" [truthyDefaultParam] [] [] =
      .ok (filledVector [truthyDefaultParam] [] [] 0 (.str "x")) ∧
    (filledVector [truthyDefaultParam] [] [] 0 (.str "x"))[0]? =
      some (PyValue.str "x") :=
  bind_omitted_truthy_default_inserted "m" [] [] truthyDefaultParam (.str "x") [] []
    (by decide) (by decide) (by intro pr hpr; simp at hpr) (by decide)
    rfl rfl rfl rfl rfl
    (by intro q hq; simp at hq)
    (by intro kv hkv; simp at hkv)

/-- C7: for a required, nullable parameter with no `default` key, every
otherwise well-formed call omitting it binds successfully with an explicit
`None` at the parameter's contract position `pre.length`. -/
theorem bind_omitted_nullable_inserts_null (mn : String) (pre post : List ParamDef)
    (p : ParamDef) (args : List PyValue) (kwargs : List (String × PyValue))
    (hnd : ((pre ++ p :: post).map ParamDef.name).Nodup)
    (ha : args.length ≤ pre.length)
    (hargs : ∀ pr ∈ args.zip (pre ++ p :: post), validate_param pr.1 pr.2 = .ok ())
    (hkwnd : (kwargs.map Prod.fst).Nodup)
    (hpn : kwHas kwargs p.name = false)
    (hreq : p.required = true)
    (hnull : p.null = true)
    (hdef : p.default = Option.none)
    (hother : ∀ q ∈ pre.drop args.length ++ post,
      ∃ v, kwLookup kwargs q.name = some v ∧ validate_param v q = .ok ())
    (hkw : ∀ kv ∈ kwargs, ∃ q, q ∈ (pre ++ p :: post).drop args.length ∧
      q.name = kv.1 ∧ validate_param kv.2 q = .ok ()) :
    bindCall mn (pre ++ p :: post) args kwargs =
      .ok (filledVector (pre ++ p :: post) args kwargs pre.length PyValue.none) ∧
    (filledVector (pre ++ p :: post) args kwargs pre.length PyValue.none)[pre.length]? =
      some PyValue.none := by
  have hdo : defaultOf p = PyValue.none := by unfold defaultOf; rw [hdef]; rfl
  have h := bind_inserts_omitted mn pre post p args kwargs hnd ha hargs hkwnd hpn hreq
    (by rw [hnull]; rfl) hother hkw
  rwa [hdo] at h

/-- A required, nullable parameter with no default. -/
def nullableParam : ParamDef := ⟨"a", "str", true, true, Option.none⟩

/-- C7 witness: omitting the required nullable parameter binds `None` at
position 0. -/
theorem nullable_inserts_null_witness :
    bindCall "m" [nullableParam] [] [] =
      .ok (filledVector [nullableParam] [] [] 0 PyValue.none) ∧
    (filledVector [nullableParam] [] [] 0 PyValue.none)[0]? = some PyValue.none :=
  bind_omitted_nullable_inserts_null "m" [] [] nullableParam [] []
    (by decide) (by decide) (by intro pr hpr; simp at hpr) (by decide)
    rfl rfl rfl rfl
    (by intro q hq; simp at hq)
    (by intro kv hkv; simp at hkv)

/-- C9: the value synthesized for an omitted required parameter is inserted
without ever passing through `validate_param` — even when the declared
default violates the parameter's own declared type (`hbad`), the call still
binds and submits the ill-typed default at the parameter's position. -/
theorem bind_omitted_default_never_validated (mn : String) (pre post : List ParamDef)
    (p : ParamDef) (d : PyValue) (e : ValidationError) (args : List PyValue)
    (kwargs : List (String × PyValue))
    (hnd : ((pre ++ p :: post).map ParamDef.name).Nodup)
    (ha : args.length ≤ pre.length)
    (hargs : ∀ pr ∈ args.zip (pre ++ p :: post), validate_param pr.1 pr.2 = .ok ())
    (hkwnd : (kwargs.map Prod.fst).Nodup)
    (hpn : kwHas kwargs p.name = false)
    (hreq : p.required = true)
    (hdef : p.default = some d)
    (htr : truthy d = true)
    (hbad : validate_param d p = .error e)
    (hother : ∀ q ∈ pre.drop args.length ++ post,
      ∃ v, kwLookup kwargs q.name = some v ∧ validate_param v q = .ok ())
    (hkw : ∀ kv ∈ kwargs, ∃ q, q ∈ (pre ++ p :: post).drop args.length ∧
      q.name = kv.1 ∧ validate_param kv.2 q = .ok ()) :
    bindCall mn (pre ++ p :: post) args kwargs =
      .ok (filledVector (pre ++ p :: post) args kwargs pre.length d) ∧
    (filledVector (pre ++ p :: post) args kwargs pre.length d)[pre.length]? = some d := by
  have hdo : defaultOf p = d := by unfold defaultOf; rw [hdef]; rfl
  have h := bind_inserts_omitted mn pre post p args kwargs hnd ha hargs hkwnd hpn hreq
    (by rw [hdo, htr]; simp) hother hkw
  rwa [hdo] at h

/-- A required, non-nullable `str` parameter whose declared (truthy) default
`5` is an `int`, violating the parameter's own type. -/
def illTypedDefaultParam : ParamDef := ⟨"a", "str", true, false, some (.int 5)⟩

/-- C9 witness: the ill-typed default `5` fails validation yet is bound at
position 0 when the parameter is omitted. -/
theorem default_never_validated_witness :
    bindCall "m" [illTypedDefaultParam] [] [] =
      .ok (filledVector [illTypedDefaultParam] [] [] 0 (.int 5)) ∧
    (filledVector [illTypedDefaultParam] [] [] 0 (.int 5))[0]? =
      some (PyValue.int 5) :=
  bind_omitted_default_never_validated "m" [] [] illTypedDefaultParam (.int 5)
    (.typeError "Expected str for arg a, got int") [] []
    (by decide) (by decide) (by intro pr hpr; simp at hpr) (by decide)
    rfl rfl rfl rfl rfl
    (by intro q hq; simp at hq)
    (by intro kv hkv; simp at hkv)

/-- C6: for a required, non-nullable parameter with no default, every
otherwise well-formed call omitting it fails at binding with the
missing-argument error naming that parameter, and the transport is never
invoked — the dispatched call returns that binding error for *every*
transport `send`. -/
theorem methodCall_missing_required (send : List PyValue → Except Fault PyValue)
    (mn : String) (pre post : List ParamDef) (p : ParamDef)
    (args : List PyValue) (kwargs : List (String × PyValue))
    (hnd : ((pre ++ p :: post).map ParamDef.name).Nodup)
    (ha : args.length ≤ pre.length)
    (hargs : ∀ pr ∈ args.zip (pre ++ p :: post), validate_param pr.1 pr.2 = .ok ())
    (hkwnd : (kwargs.map Prod.fst).Nodup)
    (hpn : kwHas kwargs p.name = false)
    (hreq : p.required = true)
    (hnull : p.null = false)
    (hdef : p.default = Option.none)
    (hpre : ∀ q ∈ pre.drop args.length, q.required = true →
      (q.null || truthy (defaultOf q)) = false → kwHas kwargs q.name = true)
    (hkw : ∀ kv ∈ kwargs, ∃ q, q ∈ (pre ++ p :: post).drop args.length ∧
      q.name = kv.1 ∧ validate_param kv.2 q = .ok ()) :
    methodCall send mn (pre ++ p :: post) args kwargs =
      .error (.bindingError (.missingArgument mn p.name)) := by
  have hno : (p.null || truthy (defaultOf p)) = false := by
    unfold defaultOf; rw [hnull, hdef]; rfl
  have hb := bind_raises_missing mn pre post p args kwargs hnd ha hargs hkwnd hpn
    hreq hno hpre hkw
  unfold methodCall
  rw [hb]

/-- A required, non-nullable parameter with no default. -/
def requiredParam : ParamDef := ⟨"a", "str", true, false, Option.none⟩

/-- C6 witness: omitting the required parameter yields the missing-argument
error naming it, with a concrete transport never consulted. -/
theorem missing_required_witness :
    methodCall (fun _ => .ok PyValue.none) "m" [requiredParam] [] [] =
      .error (.bindingError (.missingArgument "m" "a")) :=
  methodCall_missing_required (fun _ => .ok PyValue.none) "m" [] [] requiredParam [] []
    (by decide) (by decide) (by intro pr hpr; simp at hpr) (by decide)
    rfl rfl rfl rfl
    (by intro q hq; simp at hq)
    (by intro kv hkv; simp at hkv)

/-- C10: because the binder tests the default by truthiness
(`p[NULL] or p.get(DEFAULT)`), a required, non-nullable parameter whose
declared default is falsy is treated as having no default: omitting it
raises the missing-argument error instead of inserting the declared
default. -/
theorem bind_omitted_falsy_default_missing (mn : String) (pre post : List ParamDef)
    (p : ParamDef) (d : PyValue) (args : List PyValue)
    (kwargs : List (String × PyValue))
    (hnd : ((pre ++ p :: post).map ParamDef.name).Nodup)
    (ha : args.length ≤ pre.length)
    (hargs : ∀ pr ∈ args.zip (pre ++ p :: post), validate_param pr.1 pr.2 = .ok ())
    (hkwnd : (kwargs.map Prod.fst).Nodup)
    (hpn : kwHas kwargs p.name = false)
    (hreq : p.required = true)
    (hnull : p.null = false)
    (hdef : p.default = some d)
    (htr : truthy d = false)
    (hpre : ∀ q ∈ pre.drop args.length, q.required = true →
      (q.null || truthy (defaultOf q)) = false → kwHas kwargs q.name = true)
    (hkw : ∀ kv ∈ kwargs, ∃ q, q ∈ (pre ++ p :: post).drop args.length ∧
      q.name = kv.1 ∧ validate_param kv.2 q = .ok ()) :
    bindCall mn (pre ++ p :: post) args kwargs =
      .error (.missingArgument mn p.name) := by
  have hno : (p.null || truthy (defaultOf p)) = false := by
    unfold defaultOf; rw [hnull, hdef]
    simpa using htr
  exact bind_raises_missing mn pre post p args kwargs hnd ha hargs hkwnd hpn
    hreq hno hpre hkw

/-- C10 witness: the parameter defaulting to the falsy `""` raises the
missing-argument error when omitted. -/
theorem falsy_default_missing_witness :
    bindCall "m" [falsyDefaultParam] [] [] = .error (.missingArgument "m" "a") :=
  bind_omitted_falsy_default_missing "m" [] [] falsyDefaultParam (.str "") [] []
    (by decide) (by decide) (by intro pr hpr; simp at hpr) (by decide)
    rfl rfl rfl rfl rfl
    (by intro q hq; simp at hq)
    (by intro kv hkv; simp at hkv)

/-- C8: for a parameter whose declared base type resolves to `str`, `list`
or `dict` and whose `null` flag is false, validating an empty value of the
correct runtime type rejects with the
`"Expected non-empty X for arg NAME, got empty X"` diagnostic, while a
non-empty value of the correct type (whose items are well-typed when an
item type is declared) is accepted. -/
theorem validate_empty_rejected_nonempty_accepted (pd : ParamDef) (bt : PyType)
    (oit : Option PyType)
    (hres : resolveTypes pd.type = .ok (bt, oit))
    (hbt : bt = PyType.str ∨ bt = PyType.list ∨ bt = PyType.dict)
    (hnull : pd.null = false) :
    (∀ v, isinstance v bt = true → pyLen v = some 0 →
      validate_param v pd = .error (.typeError ("Expected non-empty " ++
        typeNameOfTy bt ++ " for arg " ++ pd.name ++ ", got empty " ++ typeName v))) ∧
    (∀ v, isinstance v bt = true →
      (∀ it, oit = some it → ∃ es, elemsOf v = some es ∧
        es.all (fun e => isinstance e it) = true) →
      pyLen v ≠ some 0 →
      validate_param v pd = .ok ()) := by
  constructor
  · intro v hiv hlen
    rcases hbt with hb | hb | hb <;> subst hb
    · cases v with
      | str s =>
        have hs : s.toList = [] := by
          simp only [pyLen, Option.some.injEq] at hlen
          exact List.eq_nil_of_length_eq_zero hlen
        have hsd : s.data = [] := hs
        have hs0 : s.length = 0 := by
          have h2 : s.toList.length = 0 := by rw [hs]; rfl
          exact h2
        cases oit with
        | none =>
          simp [validate_param, hres, hnull, pyIsNone, isinstance, pyLen, hs, hsd,
            hs0, typeName, typeNameOfTy]
        | some it =>
          simp [validate_param, hres, hnull, pyIsNone, isinstance, pyLen, elemsOf,
            hs, hsd, hs0, typeName, typeNameOfTy]
      | none => simp [isinstance] at hiv
      | bool b => simp [isinstance] at hiv
      | int n => simp [isinstance] at hiv
      | float t => simp [isinstance] at hiv
      | list xs => simp [isinstance] at hiv
      | dict kvs => simp [isinstance] at hiv
    · cases v with
      | list xs =>
        have hs : xs = [] := by
          simp only [pyLen, Option.some.injEq] at hlen
          exact List.eq_nil_of_length_eq_zero hlen
        subst hs
        cases oit with
        | none =>
          simp [validate_param, hres, hnull, pyIsNone, isinstance, pyLen,
            typeName, typeNameOfTy]
        | some it =>
          simp [validate_param, hres, hnull, pyIsNone, isinstance, pyLen, elemsOf,
            typeName, typeNameOfTy]
      | none => simp [isinstance] at hiv
      | bool b => simp [isinstance] at hiv
      | int n => simp [isinstance] at hiv
      | float t => simp [isinstance] at hiv
      | str s => simp [isinstance] at hiv
      | dict kvs => simp [isinstance] at hiv
    · cases v with
      | dict kvs =>
        have hs : kvs = [] := by
          simp only [pyLen, Option.some.injEq] at hlen
          exact List.eq_nil_of_length_eq_zero hlen
        subst hs
        cases oit with
        | none =>
          simp [validate_param, hres, hnull, pyIsNone, isinstance, pyLen,
            typeName, typeNameOfTy]
        | some it =>
          simp [validate_param, hres, hnull, pyIsNone, isinstance, pyLen, elemsOf,
            typeName, typeNameOfTy]
      | none => simp [isinstance] at hiv
      | bool b => simp [isinstance] at hiv
      | int n => simp [isinstance] at hiv
      | float t => simp [isinstance] at hiv
      | str s => simp [isinstance] at hiv
      | list xs => simp [isinstance] at hiv
  · intro v hiv hitems hlen
    cases oit with
    | none =>
      rcases hbt with hb | hb | hb <;> subst hb
      · cases v with
        | str s =>
          have hne : ¬ s.length = 0 := fun h0 => hlen (congrArg some h0)
          simp [validate_param, hres, hnull, pyIsNone, isinstance, pyLen, hne]
        | none => simp [isinstance] at hiv
        | bool b => simp [isinstance] at hiv
        | int n => simp [isinstance] at hiv
        | float t => simp [isinstance] at hiv
        | list xs => simp [isinstance] at hiv
        | dict kvs => simp [isinstance] at hiv
      · cases v with
        | list xs =>
          have hne : xs.length ≠ 0 := by
            intro h0
            exact hlen (by simp [pyLen, h0])
          simp [validate_param, hres, hnull, pyIsNone, isinstance, pyLen, hne]
        | none => simp [isinstance] at hiv
        | bool b => simp [isinstance] at hiv
        | int n => simp [isinstance] at hiv
        | float t => simp [isinstance] at hiv
        | str s => simp [isinstance] at hiv
        | dict kvs => simp [isinstance] at hiv
      · cases v with
        | dict kvs =>
          have hne : kvs.length ≠ 0 := by
            intro h0
            exact hlen (by simp [pyLen, h0])
          simp [validate_param, hres, hnull, pyIsNone, isinstance, pyLen, hne]
        | none => simp [isinstance] at hiv
        | bool b => simp [isinstance] at hiv
        | int n => simp [isinstance] at hiv
        | float t => simp [isinstance] at hiv
        | str s => simp [isinstance] at hiv
        | list xs => simp [isinstance] at hiv
    | some it =>
      obtain ⟨es, helems, hall⟩ := hitems it rfl
      rcases hbt with hb | hb | hb <;> subst hb
      · cases v with
        | str s =>
          have hne : ¬ s.length = 0 := fun h0 => hlen (congrArg some h0)
          simp [validate_param, hres, hnull, pyIsNone, isinstance, pyLen, hne, helems]
          intro x hx
          simpa [isinstance] using List.all_eq_true.mp hall x hx
        | none => simp [isinstance] at hiv
        | bool b => simp [isinstance] at hiv
        | int n => simp [isinstance] at hiv
        | float t => simp [isinstance] at hiv
        | list xs => simp [isinstance] at hiv
        | dict kvs => simp [isinstance] at hiv
      · cases v with
        | list xs =>
          have hne : xs.length ≠ 0 := by
            intro h0
            exact hlen (by simp [pyLen, h0])
          simp [validate_param, hres, hnull, pyIsNone, isinstance, pyLen, hne, helems]
          intro x hx
          simpa [isinstance] using List.all_eq_true.mp hall x hx
        | none => simp [isinstance] at hiv
        | bool b => simp [isinstance] at hiv
        | int n => simp [isinstance] at hiv
        | float t => simp [isinstance] at hiv
        | str s => simp [isinstance] at hiv
        | dict kvs => simp [isinstance] at hiv
      · cases v with
        | dict kvs =>
          have hne : kvs.length ≠ 0 := by
            intro h0
            exact hlen (by simp [pyLen, h0])
          simp [validate_param, hres, hnull, pyIsNone, isinstance, pyLen, hne, helems]
          intro x hx
          simpa [isinstance] using List.all_eq_true.mp hall x hx
        | none => simp [isinstance] at hiv
        | bool b => simp [isinstance] at hiv
        | int n => simp [isinstance] at hiv
        | float t => simp [isinstance] at hiv
        | str s => simp [isinstance] at hiv
        | list xs => simp [isinstance] at hiv

/-- C8 witness: the non-nullable `str` parameter rejects the empty string
with the "non-empty" diagnostic and accepts a non-empty one. -/
theorem validate_empty_nonempty_witness :
    validate_param (.str "") requiredParam =
      .error (.typeError "Expected non-empty str for arg a, got empty str") ∧
    validate_param (.str "ab") requiredParam = .ok () := by
  have h := validate_empty_rejected_nonempty_accepted requiredParam .str Option.none
    rfl (Or.inl rfl) rfl
  exact ⟨h.1 (.str "") rfl rfl,
    h.2 (.str "ab") rfl (by intro it hit; simp at hit) (by decide)⟩

end PyOvpn
